import Mathlib

set_option maxRecDepth 100000

/-!
Verification of the RAG orchestration and retrieval engine
(`utils/rag_engine.py`): content chunking, vector retrieval with adaptive
relevance filtering, context-window budgeting, batched knowledge-base
building, and the bounded-retry answer-generation protocol.

Modelling conventions:
* Python strings are modelled as `List Char` (named `Str`); `str` converts a
  Lean string literal.  Python slicing `s[a:b]` becomes `(s.drop a).take (b-a)`.
* Python floats (similarity scores, thresholds) are modelled as `ℚ`.
* Python dicts with possibly-absent keys are modelled as structures with
  `Option` fields (`none` = key absent).
* External capability providers (the vector index query, the LLM call, the
  tokenizer, the conversation logger) are abstract parameters: a call that may
  raise is an `Except`/`Option`-valued oracle.  A caught Python exception is
  the `Except.error`/`none` case.
-/

/-- Python `str` values, modelled as lists of characters. -/
abbrev Str := List Char

/-- Convert a Lean string literal to the `Str` model. -/
def str (s : String) : Str := s.data

/-- Characters removed by Python `str.strip()` (ASCII whitespace). -/
def isPyWS (c : Char) : Bool :=
  c = ' ' ∨ c = '\t' ∨ c = '\n' ∨ c = '\x0d' ∨ c = '\x0b' ∨ c = '\x0c'

/-- Python `str.strip()`: drop leading and trailing whitespace. -/
def pstrip (l : Str) : Str :=
  ((l.dropWhile isPyWS).reverse.dropWhile isPyWS).reverse

/-! ## Configuration constants (`utils/config.py`) -/

def CHUNK_SIZE : Nat := 1000
def CHUNK_OVERLAP : Nat := 200
def MAX_RETRIEVED_DOCS : Nat := 5
def SIMILARITY_THRESHOLD : ℚ := 3/10
/-- `JupiterRAGEngine.DEFAULT_SIMILARITY_THRESHOLD` (rag_engine.py line 19). -/
def DEFAULT_SIMILARITY_THRESHOLD : ℚ := 3/10

/-! ## Chunker (`_chunk_content`, rag_engine.py lines 67-94) -/

/-- Python `content[i:i+2] in ['. ', '! ', '? ', '.\n']`
(rag_engine.py line 81). -/
def isSentenceBoundary (content : Str) (i : Nat) : Bool :=
  let s := (content.drop i).take 2
  s == str ". " || s == str "! " || s == str "? " || s == str ".\n"

/-- The backward `for i in range(end, lower, -1)` scan of line 80: visit
positions `i, i-1, ...` (`fuel` of them) and return the first (i.e. largest)
position carrying a sentence boundary, if any.  Called with
`fuel = end - lower`, so the scan covers exactly `lower < i ≤ end`. -/
def searchBack (content : Str) : Nat → Nat → Option Nat
  | 0, _ => none
  | fuel + 1, i =>
    if isSentenceBoundary content i then some i
    else searchBack content fuel (i - 1)

/-- The exclusive lower bound of the backward scan:
`max(start + CHUNK_SIZE - 200, start + CHUNK_SIZE // 2)` (line 80), with the
chunk size a parameter `cs`.  (For `cs < 200` Python's `start + cs - 200` may
be negative, but it is then dominated by `start + cs // 2 ≥ start`, so
truncated `Nat` subtraction agrees with Python's `max`.) -/
def scanLower (cs start : Nat) : Nat := max (start + cs - 200) (start + cs / 2)

/-- Lines 79-83: if the nominal cut `endN` is inside the content, search
backward for a sentence boundary and cut just after it (`end = i + 1`),
otherwise keep the nominal cut. -/
def adjustEnd (cs : Nat) (content : Str) (start endN : Nat) : Nat :=
  if endN < content.length then
    match searchBack content (endN - scanLower cs start) endN with
    | some i => i + 1
    | none => endN
  else endN

/-- The `while start < len(content)` loop of lines 75-92, with explicit fuel
(the source loop advances `start` by at least `cs - 200 - ov` per iteration
for the configured `cs = 1000, ov = 200`, so `content.length` iterations are
more than enough; chunks are appended in order).  Python's
`start = end - overlap` never goes negative for the configured values since
`end ≥ overlap` on every iteration. -/
def chunkLoop (cs ov : Nat) (content : Str) : Nat → Nat → List Str → List Str
  | 0, _, acc => acc
  | fuel + 1, start, acc =>
    if start < content.length then
      let endN := adjustEnd cs content start (start + cs)
      let chunk := pstrip ((content.drop start).take (endN - start))
      let acc2 := if chunk ≠ [] ∧ 100 < chunk.length then acc ++ [chunk] else acc
      let start2 := endN - ov
      if content.length ≤ start2 then acc2
      else chunkLoop cs ov content fuel start2 acc2
    else acc

/-- `_chunk_content` (rag_engine.py lines 67-94), parameterised by the
configured chunk size and overlap. -/
def chunk_content (cs ov : Nat) (content : Str) : List Str :=
  if content.length ≤ cs then [content]
  else chunkLoop cs ov content content.length 0 []

/-! ## Knowledge-base build (`build_knowledge_base`, lines 96-177) -/

/-- A scraped document as consumed by `build_knowledge_base`
(`doc.get('content', '')` etc.). -/
structure ScrapedDoc where
  content : Str
  url : Str
  title : Str
  category : Str
  keywords : List Str
deriving DecidableEq

/-- The deterministic chunk identifier `f"doc_{doc_idx}_chunk_{chunk_idx}"`
(line 124). -/
def chunkId (docIdx chunkIdx : Nat) : String :=
  "doc_" ++ Nat.repr docIdx ++ "_chunk_" ++ Nat.repr chunkIdx

/-- Lines 116-138 for one document: skip documents with empty or short
(`len < 150`) content, chunk the rest, and key every chunk by its
deterministic id.  (The per-chunk metadata dict is carried by the id/chunk
pair; its fields are not consulted by any claim.) -/
def docEntries (docIdx : Nat) (doc : ScrapedDoc) : List (String × Str) :=
  if doc.content = [] ∨ doc.content.length < 150 then []
  else ((chunk_content CHUNK_SIZE CHUNK_OVERLAP doc.content).enum).map
    fun p => (chunkId docIdx p.1, p.2)

/-- The chunk-gathering loop of lines 111-138 over all documents. -/
def buildEntries (docs : List ScrapedDoc) : List (String × Str) :=
  docs.enum.flatMap fun p => docEntries p.1 p.2

/-- Python `for i in range(0, len(l), bs)` slicing: cut a list into batches of
`bs` (`batch_size = 50`, line 143), with fuel for termination. -/
def batchSlicesF {α : Type} (bs : Nat) : Nat → List α → List (List α)
  | 0, _ => []
  | _ + 1, [] => []
  | fuel + 1, l => l.take bs :: batchSlicesF bs fuel (l.drop bs)

def batchSlices {α : Type} (bs : Nat) (l : List α) : List (List α) :=
  batchSlicesF bs (l.length + 1) l

/-- The batched insertion loop of lines 146-167, generic in the store `σ` and
the batch type `α`.  `addOk b` says whether the store `add` call for the
batch at position `b` succeeds (raises otherwise); `ins` performs the
insertion.  The loop state carries Python's `batch_num` variable as an
`Option`: it is only assigned (to `b + 1`, from `i // batch_size + 1` at
line 158) *after* a successful add.  The `except` handler at line 166 reads
`batch_num`; if it was never assigned, that read itself raises `NameError`,
which escapes to the outer handler at line 175 and the build returns
`False` with the store left as already inserted. -/
def addBatchesGo {σ α : Type} (addOk : Nat → Bool) (ins : σ → α → σ) :
    Nat → Option Nat → σ → List α → Bool × σ
  | _, _, store, [] => (true, store)
  | b, batchNum, store, batch :: rest =>
    if addOk b then
      addBatchesGo addOk ins (b + 1) (some (b + 1)) (ins store batch) rest
    else
      match batchNum with
      | none => (false, store)
      | some _ => addBatchesGo addOk ins (b + 1) batchNum store rest

def addBatches {σ α : Type} (addOk : Nat → Bool) (ins : σ → α → σ)
    (store : σ) (batches : List α) : Bool × σ :=
  addBatchesGo addOk ins 0 none store batches

/-- `build_knowledge_base` (lines 96-177): refuse empty input, gather the
deterministic chunk entries, insert them in batches of 50, and report
success.  The store, whose `add`/upsert semantics belongs to the external
vector index, is a parameter (`ins`/`s0`); the trailing database save of
line 170 is an external collaborator and is abstracted away. -/
def build_knowledge_base {σ : Type} (ins : σ → List (String × Str) → σ)
    (addOk : Nat → Bool) (s0 : σ) (docs : List ScrapedDoc) : Bool × σ :=
  if docs = [] then (false, s0)
  else addBatches addOk ins s0 (batchSlices 50 (buildEntries docs))

/-! ## Knowledge store with upsert semantics (claim C7)

Modelled from the spec: the vector index itself (the ChromaDB collection) is
an external collaborator not in `src/`; section 4.2 gives its contract
`upsert(ids, texts, metadatas)` with "re-adding a document with the same id
overwrites, not duplicates".  We model it as an association list from chunk
id to chunk text where inserting an existing id overwrites in place and a
fresh id is appended. -/

/-- The store: chunk id → chunk text, in insertion order. -/
abbrev Store := List (String × Str)

/-- Modelled from the spec: single-id upsert — overwrite the entry with the
same id if present, else append. -/
def upsert : Store → String × Str → Store
  | [], kv => [kv]
  | (k, v) :: t, kv => if k = kv.1 then (k, kv.2) :: t else (k, v) :: upsert t kv

/-- Insert a whole batch of entries, in order. -/
def upsertMany (s : Store) (l : List (String × Str)) : Store :=
  l.foldl upsert s

/-- The ids present in the store, in order. -/
def storeKeys (s : Store) : List String := s.map Prod.fst

/-- Look up the text stored under an id. -/
def storeLookup (k : String) : Store → Option Str
  | [] => none
  | (k2, v) :: t => if k2 = k then some v else storeLookup k t

/-- The value the *last* entry of `l` carrying key `k` would store
(specification device for reasoning about repeated upserts). -/
def lastVal (k : String) : List (String × Str) → Option Str
  | [] => none
  | kv :: t =>
    match lastVal k t with
    | some v => some v
    | none => if kv.1 = k then some kv.2 else none

/-- `build_knowledge_base` acting on the upsert store with every batch
insertion succeeding: full knowledge-base build against the spec-modelled
vector index. -/
def build_kb_store (s : Store) (docs : List ScrapedDoc) : Store :=
  (build_knowledge_base upsertMany (fun _ => true) s docs).2

/-! ## Retriever (`retrieve_context`, rag_engine.py lines 179-300) -/

/-- The metadata dict attached to a retrieved chunk; `retrieve_context` only
reads the keys `source_url` and `title` (with defaults `''` / `'Unknown'`),
modelled as `Option` fields (`none` = key absent, covering the
`metadata = {}` fallback of line 226). -/
structure ChunkMeta where
  source_url : Option Str
  title : Option Str
deriving DecidableEq

/-- `doc_info` (lines 236-242): a retrieved candidate. -/
structure RetrievedDoc where
  content : Str
  metadata : ChunkMeta
  similarity_score : ℚ
  source_url : Str
  title : Str
deriving DecidableEq

/-- The (already unwrapped) result lists of the ChromaDB query:
`results['documents'][0]`, `results['metadatas'][0]`, `results['distances'][0]`
(lines 206-208).  The lists need not have equal lengths; lines 225-226 guard
each access. -/
structure QueryResults where
  documents : List Str
  metadatas : List ChunkMeta
  distances : List ℚ
deriving DecidableEq

/-- The distance → similarity conversion
`similarity_score = max(0, 1 - (distance / 1.5))` (lines 230 and 267). -/
def sim (d : ℚ) : ℚ := max 0 (1 - d / (3/2))

/-- Lines 213-216: use the configured similarity threshold unless it is
unreasonably high (`> 0.8`), in which case fall back to
`DEFAULT_SIMILARITY_THRESHOLD`. -/
def effThreshold (θ : ℚ) : ℚ :=
  if θ > 4/5 then DEFAULT_SIMILARITY_THRESHOLD else θ

/-- The candidate built from position `i` of the query results
(lines 222-242): a missing distance defaults to `1.0`, a missing metadata
entry to the empty dict. -/
def candidateAt (qr : QueryResults) (i : Nat) : RetrievedDoc :=
  let distance := qr.distances.getD i 1
  let meta := qr.metadatas.getD i ⟨none, none⟩
  { content := qr.documents.getD i []
    metadata := meta
    similarity_score := sim distance
    source_url := meta.source_url.getD []
    title := meta.title.getD (str "Unknown") }

/-- One filter pass over all returned candidates (lines 222-254 resp.
261-286): keep, in rank order, every candidate whose similarity reaches the
threshold. -/
def filterPass (qr : QueryResults) (θ : ℚ) : List RetrievedDoc :=
  (List.range qr.documents.length).filterMap fun i =>
    let c := candidateAt qr i
    if θ ≤ c.similarity_score then some c else none

/-- The context fragment contributed by one surviving candidate
(lines 248-250): `f"[Source: {title}]\n{content}\n"`. -/
def contextPart (d : RetrievedDoc) : Str :=
  str "[Source: " ++ d.title ++ str "]\n" ++ d.content ++ str "\n"

/-- The separator used by `"\n---\n".join(context_parts)` (line 289). -/
def ctxSep : Str := str "\n---\n"

/-- Python `sep.join(parts)`. -/
def joinSep (sep : Str) : List Str → Str
  | [] => []
  | [x] => x
  | x :: xs => x ++ sep ++ joinSep sep xs

/-- `retrieve_context` (lines 179-300).  `count` is `collection.count()`;
`queryRes` is the outcome of the guarded ChromaDB query of lines 190-198
(`none` = the query raised, line 196).  Returns
`(full_context, retrieved_docs, avg_relevance)`. -/
def retrieve_context (count : Nat) (queryRes : Option QueryResults)
    (θcfg : ℚ) : Str × List RetrievedDoc × ℚ :=
  if count = 0 then ([], [], 0)
  else
    match queryRes with
    | none => ([], [], 0)
    | some qr =>
      if qr.documents = [] then ([], [], 0)
      else
        let θ := effThreshold θcfg
        let first := filterPass qr θ
        let docs := if first = [] ∧ 1/10 < θ then filterPass qr (1/10) else first
        let fullContext := joinSep ctxSep (docs.map contextPart)
        let total := (docs.map (·.similarity_score)).sum
        let avg := if docs = [] then 0 else total / (docs.length : ℚ)
        (fullContext, docs, avg)

/-! ## Context budgeter (`_truncate_context`, lines 310-332)

The tokenizer (`_count_tokens`, lines 302-308) wraps the external tiktoken
capability; it is modelled as an abstract total function `tk : Str → Nat`
(so the `except` fallbacks of lines 306-308 and 330-332 are unreachable in
the model). -/

/-- The greedy accumulation loop of lines 321-327: keep whole parts while the
running token total stays within budget, stop at the first part that would
exceed it. -/
def greedyParts (tk : Str → Nat) (maxT : Nat) : List Str → Nat → List Str
  | [], _ => []
  | p :: ps, cur =>
    if cur + tk p ≤ maxT then p :: greedyParts tk maxT ps (cur + tk p)
    else []

/-- Python `s.split(sep)` for nonempty `sep`, with fuel: scan left to right,
cutting at each (leftmost, non-overlapping) occurrence of the separator;
adjacent separators yield empty parts, as in Python. -/
def splitSepGo (sep : Str) : Nat → Str → Str → List Str
  | 0, l, acc => [acc.reverse ++ l]
  | _ + 1, [], acc => [acc.reverse]
  | fuel + 1, c :: rest, acc =>
    if sep.isPrefixOf (c :: rest) then
      acc.reverse :: splitSepGo sep fuel (List.drop (sep.length - 1) rest) []
    else splitSepGo sep fuel rest (acc ++ [c])

def splitSep (sep l : Str) : List Str :=
  splitSepGo sep (l.length + 1) l []

/-- `_truncate_context` (lines 310-332): if the context fits the budget,
return it unchanged; otherwise split at the separator and greedily keep whole
parts.  `max_tokens` defaults to 2000 at the call site (line 338). -/
def truncate_context (tk : Str → Nat) (context : Str) (maxT : Nat) : Str :=
  if tk context ≤ maxT then context
  else joinSep ctxSep (greedyParts tk maxT (splitSep ctxSep context) 0)

/-- The running token total of a list of parts. -/
def sumTk (tk : Str → Nat) (l : List Str) : Nat := (l.map tk).sum

/-! ## Answer generator (`generate_response`, lines 334-403) -/

/-- An attributed source entry (lines 379-383). -/
structure SourceInfo where
  title : Str
  url : Str
  relevance : ℚ
deriving DecidableEq

/-- The successful reply of the external LLM call (lines 364-374):
`usage.total_tokens` is optional, mirroring the `hasattr` check of
line 391. -/
structure LLMReply where
  content : Str
  total_tokens : Option Nat
deriving DecidableEq

/-- The dict returned by `generate_response` (lines 387-392 / 398-403). -/
structure GenResult where
  response : Str
  sources : List SourceInfo
  context_used : Nat
  tokens_used : Nat
deriving DecidableEq

def toSource (d : RetrievedDoc) : SourceInfo :=
  ⟨d.title, d.source_url, d.similarity_score⟩

/-- One step of the source-deduplication loop (lines 378-385): append the
entry unless an identical `(title, url, relevance)` record is already
present. -/
def addUnique (acc : List SourceInfo) (s : SourceInfo) : List SourceInfo :=
  if s ∈ acc then acc else acc ++ [s]

/-- `sources_used` as built by lines 377-385. -/
def sourcesUsed (docs : List RetrievedDoc) : List SourceInfo :=
  docs.foldl (fun acc d => addUnique acc (toSource d)) []

/-- The fixed apology of lines 398-403. -/
def apologyMsg : Str :=
  str "I apologize, but I\x27m experiencing technical difficulties. Please try again or contact Jupiter customer support for assistance."

/-- `generate_response` (lines 334-403): truncate the context, call the LLM
(`llm = none` models the call raising, caught at line 394), and attribute
deduplicated sources.  No exception escapes this boundary. -/
def generate_response (tk : Str → Nat) (llm : Option LLMReply)
    (context : Str) (docs : List RetrievedDoc) : GenResult :=
  let ctx := truncate_context tk context 2000
  match llm with
  | some rep =>
    { response := rep.content
      sources := sourcesUsed docs
      context_used := ctx.length
      tokens_used := rep.total_tokens.getD 0 }
  | none =>
    { response := apologyMsg, sources := [], context_used := 0, tokens_used := 0 }

/-! ## Orchestrator (`ask_question`, lines 405-488) -/

/-- What one call to `self.retrieve_context` yields inside `ask_question`
(line 416). -/
structure RetRes where
  context : Str
  docs : List RetrievedDoc
  avg : ℚ
deriving DecidableEq

/-- The per-question result dict.  `Option` fields model keys that some
outcomes omit: the no-context and technical-error terminals set neither
`tokens_used` nor `num_sources`, `conversation_id` appears only after a
successful log call, `error` only in the technical-error terminal. -/
structure AskResult where
  query : Str
  response : Str
  sources : List SourceInfo
  relevance_score : ℚ
  response_time : ℚ
  context_length : Nat
  tokens_used : Option Nat
  num_sources : Option Nat
  conversation_id : Option Nat
  error : Option Str
deriving DecidableEq

/-- `max_attempts = 3` (line 408). -/
def maxAttempts : Nat := 3

/-- The fixed "nothing relevant found" message of lines 422-429. -/
def noContextMsg : Str :=
  str "I couldn\x27t find relevant information about your question in Jupiter\x27s knowledge base. This might be because the similarity threshold is too high, or the question is outside Jupiter\x27s domain. Please try rephrasing your question or contact Jupiter customer support for assistance."

/-- The fixed technical-error message of lines 470-478. -/
def techErrorMsg : Str :=
  str "I apologize for the technical error. Please try again or contact Jupiter support."

/-- The defensive fall-through message of lines 481-488. -/
def unexpectedMsg : Str := str "Unexpected error occurred."

/-- The no-context terminal result (lines 422-429): no `tokens_used`,
`num_sources`, `conversation_id` or `error` key. -/
def noContextResult (query : Str) (elapsed : ℚ) : AskResult :=
  ⟨query, noContextMsg, [], 0, elapsed, 0, none, none, none, none⟩

/-- The technical-error terminal result (lines 470-478). -/
def techErrorResult (query : Str) (elapsed : ℚ) (e : Str) : AskResult :=
  ⟨query, techErrorMsg, [], 0, elapsed, 0, none, none, none, some e⟩

/-- The defensive fall-through result (lines 481-488). -/
def unexpectedResult (query : Str) (elapsed : ℚ) : AskResult :=
  ⟨query, unexpectedMsg, [], 0, elapsed, 0, none, none, none, none⟩

/-- The successful result (lines 434-465): generate the answer, assemble
`final_result`, and attempt best-effort logging (`log = none` models the log
call raising — the failure is swallowed and the key simply stays absent). -/
def successResult (tk : Str → Nat) (llm : Option LLMReply) (log : Option Nat)
    (session : Option Str) (query : Str) (elapsed : ℚ) (r : RetRes) : AskResult :=
  let g := generate_response tk llm r.context r.docs
  { query := query
    response := g.response
    sources := g.sources
    relevance_score := r.avg
    response_time := elapsed
    context_length := g.context_used
    tokens_used := some g.tokens_used
    num_sources := some r.docs.length
    conversation_id := match session with
      | none => none
      | some _ => log
    error := none }

/-- The attempt loop of lines 410-478, iterating over the remaining attempt
numbers (`range(1, max_attempts + 1)` gives `[1, 2, 3]`).  `retrieve n` is
the outcome of attempt `n`'s body up to the context check — an
`Except.error` models an exception raised inside the attempt and caught at
line 467.  Returns the result together with the number of the attempt that
produced it (0 for the unreachable fall-through of lines 481-488). -/
def askAttempts (retrieve : Nat → Except Str RetRes) (tk : Str → Nat)
    (llm : Option LLMReply) (log : Option Nat) (query : Str)
    (session : Option Str) (elapsed : ℚ) : List Nat → AskResult × Nat
  | [] => (unexpectedResult query elapsed, 0)
  | a :: rest =>
    match retrieve a with
    | Except.error e =>
      if a = maxAttempts then (techErrorResult query elapsed e, a)
      else askAttempts retrieve tk llm log query session elapsed rest
    | Except.ok r =>
      if r.context = [] then
        if a = maxAttempts then (noContextResult query elapsed, a)
        else askAttempts retrieve tk llm log query session elapsed rest
      else (successResult tk llm log session query elapsed r, a)

/-- `ask_question` (lines 405-488).  Wall-clock timing is abstracted by the
`elapsed` parameter (the claims constrain only the presence of
`response_time`). -/
def ask_question (retrieve : Nat → Except Str RetRes) (tk : Str → Nat)
    (llm : Option LLMReply) (log : Option Nat) (query : Str)
    (session : Option Str) (elapsed : ℚ) : AskResult × Nat :=
  askAttempts retrieve tk llm log query session elapsed [1, 2, 3]

/-! ## Concrete instances used by witnesses and counterexamples -/

/-- A retriever that yields an empty context on every attempt. -/
def constEmptyRetrieve : Nat → Except Str RetRes :=
  fun _ => Except.ok ⟨[], [], 0⟩

/-- A trivial tokenizer. -/
def zeroTk : Str → Nat := fun _ => 0

/-- The character-count tokenizer used in truncation examples. -/
def lenTk : Str → Nat := fun s => s.length

/-- Query results whose single candidate sits below the configured threshold
`0.3` but above `0.1`: distance `1.2`, similarity `1 - 1.2/1.5 = 0.2`. -/
def qrRelax : QueryResults := ⟨[str "d"], [], [6/5]⟩

/-- Query results with one returned document but an empty distances list, so
the candidate's similarity comes from the default distance `1.0`
(similarity `1/3`). -/
def qrNoDist : QueryResults := ⟨[str "x"], [], []⟩

/-- Content of length 1002 whose only sentence boundary sits 300 characters
before the nominal cut at 1000 — inside `chunk_size/2 = 500` but outside the
code's 200-character scan window. -/
def farBoundaryContent : Str :=
  List.replicate 700 'a' ++ str ". " ++ List.replicate 300 'a'

/-- Content of length 1002 with a sentence boundary 100 characters before the
nominal cut at 1000, inside the code's scan window. -/
def nearBoundaryContent : Str :=
  List.replicate 900 'a' ++ str ". " ++ List.replicate 100 'a'

/-- A retrieved candidate; two copies of it share `(title, url, relevance)`. -/
def dupDoc : RetrievedDoc := ⟨str "x", ⟨none, none⟩, 1/2, str "u", str "t"⟩

/-- A retriever returning the same candidate twice on every attempt. -/
def dupRetrieve : Nat → Except Str RetRes :=
  fun _ => Except.ok ⟨str "c", [dupDoc, dupDoc], 1/2⟩

/-- A ten-unit context of six-character units. -/
def tenUnitCtx : Str := joinSep ctxSep (List.replicate 10 (str "aaaaaa"))

/-- Content of length 1001: 800 spaces, 150 letters, 51 spaces.  The sliding
windows `[0, 1000)` and `[800, 1001)` both strip to the same 150-letter
chunk, so the chunker emits a duplicate. -/
def dupChunkContent : Str :=
  List.replicate 800 ' ' ++ List.replicate 150 'a' ++ List.replicate 51 ' '

/-! ## Orchestrator lemmas -/

/-- Every result produced by the attempt loop is one of the fixed shapes:
a terminal (no-context / technical-error / fall-through) record that omits
`tokens_used` and `num_sources`, or a success record carrying both. -/
theorem askAttempts_shape (retrieve : Nat → Except Str RetRes) (tk : Str → Nat)
    (llm : Option LLMReply) (log : Option Nat) (query : Str)
    (session : Option Str) (elapsed : ℚ) (attempts : List Nat) :
    (askAttempts retrieve tk llm log query session elapsed attempts).1.query = query ∧
    (askAttempts retrieve tk llm log query session elapsed attempts).1.response_time = elapsed ∧
    (((askAttempts retrieve tk llm log query session elapsed attempts).1.tokens_used = none ∧
      (askAttempts retrieve tk llm log query session elapsed attempts).1.num_sources = none ∧
      (askAttempts retrieve tk llm log query session elapsed attempts).1.sources = [] ∧
      (askAttempts retrieve tk llm log query session elapsed attempts).1.relevance_score = 0 ∧
      (askAttempts retrieve tk llm log query session elapsed attempts).1.context_length = 0 ∧
      ((askAttempts retrieve tk llm log query session elapsed attempts).1.response = noContextMsg ∨
       (askAttempts retrieve tk llm log query session elapsed attempts).1.response = techErrorMsg ∨
       (askAttempts retrieve tk llm log query session elapsed attempts).1.response = unexpectedMsg)) ∨
     (∃ t n, (askAttempts retrieve tk llm log query session elapsed attempts).1.tokens_used = some t ∧
       (askAttempts retrieve tk llm log query session elapsed attempts).1.num_sources = some n)) := by
  induction attempts with
  | nil =>
    refine ⟨rfl, rfl, Or.inl ⟨rfl, rfl, rfl, rfl, rfl, Or.inr (Or.inr rfl)⟩⟩
  | cons a rest ih =>
    show _ ∧ _ ∧ _
    simp only [askAttempts]
    cases hr : retrieve a with
    | error e =>
      by_cases ha : a = maxAttempts
      · simp only [ha, if_pos rfl]
        exact ⟨rfl, rfl, Or.inl ⟨rfl, rfl, rfl, rfl, rfl, Or.inr (Or.inl rfl)⟩⟩
      · simp only [if_neg ha]
        exact ih
    | ok r =>
      by_cases hc : r.context = []
      · by_cases ha : a = maxAttempts
        · simp only [hc, if_pos rfl, ha]
          exact ⟨rfl, rfl, Or.inl ⟨rfl, rfl, rfl, rfl, rfl, Or.inl rfl⟩⟩
        · simp only [hc, if_pos rfl, if_neg ha]
          exact ih
      · simp only [if_neg hc]
        exact ⟨rfl, rfl, Or.inr ⟨_, _, rfl, rfl⟩⟩

/-- If the attempt loop returns a success record (`num_sources` present),
some attempt retrieved a nonempty context `r` and the record is the success
record built from `r`. -/
theorem askAttempts_success (retrieve : Nat → Except Str RetRes) (tk : Str → Nat)
    (llm : Option LLMReply) (log : Option Nat) (query : Str)
    (session : Option Str) (elapsed : ℚ) (attempts : List Nat) (k : Nat)
    (h : (askAttempts retrieve tk llm log query session elapsed attempts).1.num_sources = some k) :
    ∃ a r, a ∈ attempts ∧ retrieve a = Except.ok r ∧ r.context ≠ [] ∧
      (askAttempts retrieve tk llm log query session elapsed attempts).1 =
        successResult tk llm log session query elapsed r := by
  induction attempts with
  | nil => exact absurd h (by simp [askAttempts, unexpectedResult])
  | cons a rest ih =>
    cases hr : retrieve a with
    | error e =>
      simp only [askAttempts, hr] at h ⊢
      by_cases ha : a = maxAttempts
      · rw [if_pos ha] at h
        exact absurd h (by simp [techErrorResult])
      · rw [if_neg ha] at h ⊢
        obtain ⟨a2, r2, hmem, h1, h2, h3⟩ := ih h
        exact ⟨a2, r2, List.mem_cons_of_mem _ hmem, h1, h2, h3⟩
    | ok r =>
      simp only [askAttempts, hr] at h ⊢
      by_cases hc : r.context = []
      · rw [if_pos hc] at h ⊢
        by_cases ha : a = maxAttempts
        · rw [if_pos ha] at h
          exact absurd h (by simp [noContextResult])
        · rw [if_neg ha] at h ⊢
          obtain ⟨a2, r2, hmem, h1, h2, h3⟩ := ih h
          exact ⟨a2, r2, List.mem_cons_of_mem _ hmem, h1, h2, h3⟩
      · rw [if_neg hc] at h ⊢
        exact ⟨a, r, List.mem_cons_self a rest, hr, hc, rfl⟩

/-- C1: when retrieval yields empty context on every attempt, `ask_question`
terminates after exactly 3 attempts and returns the fixed "nothing relevant
found" result with `relevance_score = 0.0` and `sources = []`; on the
non-final attempts with empty context it loops back to retrieval instead of
returning. -/
theorem c1_empty_retrieval_three_attempts (retrieve : Nat → Except Str RetRes)
    (tk : Str → Nat) (llm : Option LLMReply) (log : Option Nat) (query : Str)
    (session : Option Str) (elapsed : ℚ)
    (h : ∀ n, ∃ docs avg, retrieve n = Except.ok ⟨[], docs, avg⟩) :
    ask_question retrieve tk llm log query session elapsed =
      (noContextResult query elapsed, 3) := by
  obtain ⟨d1, v1, h1⟩ := h 1
  obtain ⟨d2, v2, h2⟩ := h 2
  obtain ⟨d3, v3, h3⟩ := h 3
  simp [ask_question, askAttempts, h1, h2, h3, maxAttempts]

/-- C1 witness: the always-empty retriever makes `ask_question` return the
fixed no-context terminal at attempt 3. -/
theorem c1_empty_retrieval_three_attempts_witness :
    ask_question constEmptyRetrieve zeroTk none none (str "q") none 0 =
      (noContextResult (str "q") 0, 3) :=
  c1_empty_retrieval_three_attempts constEmptyRetrieve zeroTk none none
    (str "q") none 0 (fun _ => ⟨[], 0, rfl⟩)

/-- C3: the partial-success batching policy the claim (and spec) state.  The
code violates it when the *first* batch's insertion fails: the `except`
handler at rag_engine.py line 166 reads `batch_num`, assigned only after a
successful add (line 158), so the first-batch failure raises `NameError`
inside the handler, the outer handler at line 175 returns `False`, and the
remaining batches are never inserted.  This theorem evaluates the embedded
loop at the failing input (two batches, first add fails): the build reports
failure and the second batch is not inserted — and, for contrast, at a
second-batch failure, where the claimed skip-and-continue behaviour does
hold. -/
theorem c3_first_batch_failure_aborts_build :
    addBatches (fun b => b != 0) (fun (s : List Nat) b => s ++ [b]) [] [10, 20] =
      (false, []) ∧
    addBatches (fun b => b == 0) (fun (s : List Nat) b => s ++ [b]) [] [10, 20] =
      (true, [10]) :=
  ⟨rfl, rfl⟩

/-- C6 counterexample: the claim says every `ask_question` result contains
the fields `tokens_used` and `num_sources`, but the no-context terminal
result omits both (rag_engine.py lines 422-429 build a dict without those
keys). -/
theorem c6_terminal_result_missing_fields :
    (ask_question constEmptyRetrieve zeroTk none none (str "q") none 0).1.tokens_used
        = none ∧
    (ask_question constEmptyRetrieve zeroTk none none (str "q") none 0).1.num_sources
        = none :=
  ⟨rfl, rfl⟩

/-- C6 amended: every result returned by `ask_question` is a well-formed
record — the function is total over all collaborator behaviours (raising
retrieval, failing LLM call, failing logger), so no exception crosses the
boundary — containing `query`, `response`, `sources`, `relevance_score`,
`response_time` and `context_length`; the success outcome additionally
carries `tokens_used` and `num_sources`, while the no-context and
technical-error terminal outcomes (and the defensive fall-through) omit
those two fields and have empty sources and zero relevance and context
length. -/
theorem c6_results_well_formed (retrieve : Nat → Except Str RetRes)
    (tk : Str → Nat) (llm : Option LLMReply) (log : Option Nat) (query : Str)
    (session : Option Str) (elapsed : ℚ) :
    (ask_question retrieve tk llm log query session elapsed).1.query = query ∧
    (ask_question retrieve tk llm log query session elapsed).1.response_time = elapsed ∧
    (((ask_question retrieve tk llm log query session elapsed).1.tokens_used = none ∧
      (ask_question retrieve tk llm log query session elapsed).1.num_sources = none ∧
      (ask_question retrieve tk llm log query session elapsed).1.sources = [] ∧
      (ask_question retrieve tk llm log query session elapsed).1.relevance_score = 0 ∧
      (ask_question retrieve tk llm log query session elapsed).1.context_length = 0 ∧
      ((ask_question retrieve tk llm log query session elapsed).1.response = noContextMsg ∨
       (ask_question retrieve tk llm log query session elapsed).1.response = techErrorMsg ∨
       (ask_question retrieve tk llm log query session elapsed).1.response = unexpectedMsg)) ∨
     (∃ t n, (ask_question retrieve tk llm log query session elapsed).1.tokens_used = some t ∧
       (ask_question retrieve tk llm log query session elapsed).1.num_sources = some n)) :=
  askAttempts_shape retrieve tk llm log query session elapsed [1, 2, 3]

/-! ## Source deduplication lemmas -/

theorem mem_addUnique {acc : List SourceInfo} {s x : SourceInfo} :
    x ∈ addUnique acc s ↔ x ∈ acc ∨ x = s := by
  unfold addUnique
  split
  · rename_i hs
    exact ⟨Or.inl, fun h => h.elim id (fun hx => hx ▸ hs)⟩
  · simp [List.mem_append]

theorem nodup_addUnique {acc : List SourceInfo} {s : SourceInfo}
    (h : acc.Nodup) : (addUnique acc s).Nodup := by
  unfold addUnique
  split
  · exact h
  · rename_i hs
    exact List.nodup_append.mpr
      ⟨h, List.nodup_singleton s, fun a ha hb => hs (by
        rw [List.mem_singleton] at hb
        exact hb ▸ ha)⟩

theorem sourcesUsed_go_mem (l : List RetrievedDoc) :
    ∀ acc x, (x ∈ l.foldl (fun a d => addUnique a (toSource d)) acc ↔
      x ∈ acc ∨ x ∈ l.map toSource) := by
  induction l with
  | nil => simp
  | cons d t ih =>
    intro acc x
    rw [List.foldl_cons, ih, mem_addUnique]
    simp [or_assoc, or_comm, or_left_comm]

theorem sourcesUsed_go_nodup (l : List RetrievedDoc) :
    ∀ acc, acc.Nodup → (l.foldl (fun a d => addUnique a (toSource d)) acc).Nodup := by
  induction l with
  | nil => exact fun _ h => h
  | cons d t ih =>
    intro acc h
    exact ih _ (nodup_addUnique h)

theorem sourcesUsed_nodup (docs : List RetrievedDoc) : (sourcesUsed docs).Nodup :=
  sourcesUsed_go_nodup docs [] List.nodup_nil

theorem sourcesUsed_mem (docs : List RetrievedDoc) (x : SourceInfo) :
    x ∈ sourcesUsed docs ↔ x ∈ docs.map toSource := by
  rw [sourcesUsed, sourcesUsed_go_mem]
  simp

theorem toFinset_card_lt_of_not_nodup {α : Type} [DecidableEq α] :
    ∀ l : List α, ¬ l.Nodup → l.toFinset.card < l.length := by
  intro l
  induction l with
  | nil => exact fun h => absurd List.nodup_nil h
  | cons a t ih =>
    intro h
    by_cases ha : a ∈ t
    · have he : (a :: t).toFinset = t.toFinset := by
        simp [List.toFinset_cons, Finset.insert_eq_self.mpr (List.mem_toFinset.mpr ha)]
      rw [he]
      exact lt_of_le_of_lt (List.toFinset_card_le t) (by simp)
    · have ht : ¬ t.Nodup := fun hn => h (List.nodup_cons.mpr ⟨ha, hn⟩)
      rw [List.toFinset_cons,
        Finset.card_insert_of_not_mem (fun hm => ha (List.mem_toFinset.mp hm))]
      simpa [List.length_cons] using Nat.succ_lt_succ (ih ht)

theorem sourcesUsed_length (docs : List RetrievedDoc) :
    (sourcesUsed docs).length = (docs.map toSource).toFinset.card := by
  have h1 : (sourcesUsed docs).toFinset = (docs.map toSource).toFinset := by
    apply Finset.ext
    intro x
    simp [List.mem_toFinset, sourcesUsed_mem]
  rw [← List.toFinset_card_of_nodup (sourcesUsed_nodup docs), h1]

theorem sourcesUsed_length_lt (docs : List RetrievedDoc)
    (h : ¬ (docs.map toSource).Nodup) :
    (sourcesUsed docs).length < docs.length := by
  rw [sourcesUsed_length]
  calc (docs.map toSource).toFinset.card < (docs.map toSource).length :=
        toFinset_card_lt_of_not_nodup _ h
    _ = docs.length := List.length_map docs toSource

/-- C10: in every successful `ask_question` result, `num_sources` equals the
total number of retrieved candidates before deduplication, the sources list
carries no two entries with the same `(title, url, relevance)` triple, and
whenever two retrieved candidates share that triple, `num_sources` strictly
exceeds the length of the sources list. -/
theorem c10_num_sources_vs_dedup (retrieve : Nat → Except Str RetRes)
    (tk : Str → Nat) (llm : Option LLMReply) (log : Option Nat) (query : Str)
    (session : Option Str) (elapsed : ℚ) (k : Nat)
    (h : (ask_question retrieve tk llm log query session elapsed).1.num_sources = some k) :
    (ask_question retrieve tk llm log query session elapsed).1.sources.Nodup ∧
    ∃ r : RetRes, (∃ a, a ∈ [1, 2, 3] ∧ retrieve a = Except.ok r ∧ r.context ≠ []) ∧
      k = r.docs.length ∧
      (¬ (r.docs.map toSource).Nodup →
        (ask_question retrieve tk llm log query session elapsed).1.sources.length < k) := by
  simp only [ask_question] at h ⊢
  obtain ⟨a, r, hmem, hra, hctx, heq⟩ :=
    askAttempts_success retrieve tk llm log query session elapsed [1, 2, 3] k h
  rw [heq] at h ⊢
  have hk : k = r.docs.length := by
    simpa [successResult] using h.symm
  refine ⟨?_, r, ⟨a, hmem, hra, hctx⟩, hk, fun hdup => ?_⟩
  · cases llm with
    | none => simp [successResult, generate_response]
    | some rep =>
      simpa [successResult, generate_response] using sourcesUsed_nodup r.docs
  · rw [hk]
    cases llm with
    | none =>
      have h0 : 0 < (r.docs.map toSource).length :=
        lt_of_le_of_lt (Nat.zero_le _) (toFinset_card_lt_of_not_nodup _ hdup)
      have h0d : 0 < r.docs.length := by simpa using h0
      simpa [successResult, generate_response] using h0d
    | some rep =>
      simpa [successResult, generate_response] using sourcesUsed_length_lt r.docs hdup

/-- C10 witness: a retriever returning the same candidate twice and a
successful LLM call yield `num_sources = 2` while the deduplicated sources
list has a single entry. -/
theorem c10_num_sources_vs_dedup_witness :
    (ask_question dupRetrieve zeroTk (some ⟨str "ans", some 5⟩) none (str "q") none 0).1.sources.Nodup ∧
    (ask_question dupRetrieve zeroTk (some ⟨str "ans", some 5⟩) none (str "q") none 0).1.sources.length < 2 := by
  have h := c10_num_sources_vs_dedup dupRetrieve zeroTk (some ⟨str "ans", some 5⟩)
    none (str "q") none 0 2 rfl
  refine ⟨h.1, ?_⟩
  obtain ⟨r, ⟨a, _, hra, _⟩, hk, himp⟩ := h.2
  have h3 : Except.ok (⟨str "c", [dupDoc, dupDoc], 1/2⟩ : RetRes) = Except.ok r := hra
  cases h3
  exact himp (by simp [List.nodup_cons])

/-! ## Retriever lemmas -/

theorem candidateAt_similarity (qr : QueryResults) (i : Nat) :
    (candidateAt qr i).similarity_score = sim (qr.distances.getD i 1) := rfl

theorem mem_filterPass {qr : QueryResults} {θ : ℚ} {i : Nat}
    (hi : i < qr.documents.length)
    (hθ : θ ≤ (candidateAt qr i).similarity_score) :
    candidateAt qr i ∈ filterPass qr θ := by
  refine List.mem_filterMap.mpr ⟨i, List.mem_range.mpr hi, ?_⟩
  show (if θ ≤ (candidateAt qr i).similarity_score
    then some (candidateAt qr i) else none) = some (candidateAt qr i)
  rw [if_pos hθ]

theorem filterPass_mem {qr : QueryResults} {θ : ℚ} {c : RetrievedDoc}
    (h : c ∈ filterPass qr θ) :
    ∃ i, i < qr.documents.length ∧ c = candidateAt qr i ∧
      θ ≤ c.similarity_score := by
  obtain ⟨i, hir, hfi⟩ := List.mem_filterMap.mp h
  have hfi2 : (if θ ≤ (candidateAt qr i).similarity_score
      then some (candidateAt qr i) else none) = some c := hfi
  by_cases hθ : θ ≤ (candidateAt qr i).similarity_score
  · rw [if_pos hθ] at hfi2
    cases hfi2
    exact ⟨i, List.mem_range.mp hir, rfl, hθ⟩
  · rw [if_neg hθ] at hfi2
    cases hfi2

theorem contextPart_ne_nil (d : RetrievedDoc) : contextPart d ≠ [] := by
  intro h
  have h9 : str "[Source: " = [] ∧ (d.title ++
      (str "]\n" ++ (d.content ++ str "\n"))) = [] := by
    rw [← List.append_eq_nil]
    simpa [contextPart, List.append_assoc] using h
  exact absurd h9.1 (by decide)

theorem joinSep_ne_nil {sep : Str} {parts : List Str} (h : parts ≠ [])
    (h2 : ∀ p ∈ parts, p ≠ []) : joinSep sep parts ≠ [] := by
  match parts with
  | [] => exact absurd rfl h
  | [x] =>
    simpa [joinSep] using h2 x (by simp)
  | x :: y :: rest =>
    have hx : x ≠ [] := h2 x (by simp)
    show x ++ sep ++ joinSep sep (y :: rest) ≠ []
    intro he
    exact hx (List.append_eq_nil.mp (List.append_eq_nil.mp he).1).1

/-- C2: if the first filter pass keeps zero candidates and the effective
threshold exceeds 0.1, `retrieve_context` repeats the filter pass over all
returned candidates with the threshold forced to 0.1; consequently, whenever
at least one returned candidate's similarity is above 0.1, it returns a
non-empty context. -/
theorem c2_threshold_relaxation (count : Nat) (qr : QueryResults) (θcfg : ℚ)
    (hc : count ≠ 0) (hd : qr.documents ≠ []) :
    (filterPass qr (effThreshold θcfg) = [] → 1/10 < effThreshold θcfg →
      (retrieve_context count (some qr) θcfg).2.1 = filterPass qr (1/10)) ∧
    ((∃ i, i < qr.documents.length ∧ 1/10 < sim (qr.distances.getD i 1)) →
      (retrieve_context count (some qr) θcfg).1 ≠ []) := by
  constructor
  · intro hfirst hθ
    simp only [retrieve_context, if_neg hc, if_neg hd]
    rw [if_pos ⟨hfirst, hθ⟩]
  · rintro ⟨i, hi, hsim⟩
    simp only [retrieve_context, if_neg hc, if_neg hd]
    by_cases hcond : filterPass qr (effThreshold θcfg) = [] ∧
        1/10 < effThreshold θcfg
    · rw [if_pos hcond]
      have hmem : candidateAt qr i ∈ filterPass qr (1/10) :=
        mem_filterPass hi (by rw [candidateAt_similarity]; exact le_of_lt hsim)
      have hne : filterPass qr (1/10) ≠ [] := by
        intro h0
        rw [h0] at hmem
        exact absurd hmem (List.not_mem_nil _)
      apply joinSep_ne_nil
      · simpa using hne
      · intro p hp
        obtain ⟨d2, _, rfl⟩ := List.mem_map.mp hp
        exact contextPart_ne_nil d2
    · rw [if_neg hcond]
      have hne : filterPass qr (effThreshold θcfg) ≠ [] := by
        intro h0
        have hθle : effThreshold θcfg ≤ 1/10 :=
          not_lt.mp (fun hlt => hcond ⟨h0, hlt⟩)
        have hmem : candidateAt qr i ∈ filterPass qr (effThreshold θcfg) :=
          mem_filterPass hi (by
            rw [candidateAt_similarity]
            exact le_trans hθle (le_of_lt hsim))
        rw [h0] at hmem
        exact absurd hmem (List.not_mem_nil _)
      apply joinSep_ne_nil
      · simpa using hne
      · intro p hp
        obtain ⟨d2, _, rfl⟩ := List.mem_map.mp hp
        exact contextPart_ne_nil d2

/-! ## Concrete retriever evaluations over ℚ -/

theorem sim_six_fifths : sim (6/5) = 1/5 := by
  rw [sim]
  have h : (1 : ℚ) - (6/5) / (3/2) = 1/5 := by norm_num
  rw [h, max_eq_right]
  norm_num

theorem sim_one : sim 1 = 1/3 := by
  rw [sim]
  have h : (1 : ℚ) - 1 / (3/2) = 1/3 := by norm_num
  rw [h, max_eq_right]
  norm_num

theorem effThreshold_default : effThreshold (3/10) = 3/10 := by
  rw [effThreshold, if_neg]
  norm_num

theorem filterPass_qrRelax_config : filterPass qrRelax (3/10) = [] := by
  apply List.filterMap_eq_nil_iff.mpr
  intro a ha
  have ha0 : a = 0 := Nat.lt_one_iff.mp (List.mem_range.mp ha)
  subst ha0
  show (if (3/10 : ℚ) ≤ (candidateAt qrRelax 0).similarity_score
    then some (candidateAt qrRelax 0) else none) = none
  apply if_neg
  rw [candidateAt_similarity, show qrRelax.distances.getD 0 1 = 6/5 from rfl,
    sim_six_fifths]
  norm_num

theorem filterPass_qrNoDist_config :
    filterPass qrNoDist (3/10) = [candidateAt qrNoDist 0] := by
  have hok : (3/10 : ℚ) ≤ (candidateAt qrNoDist 0).similarity_score := by
    rw [candidateAt_similarity, show qrNoDist.distances.getD 0 1 = 1 from rfl,
      sim_one]
    norm_num
  show (List.range qrNoDist.documents.length).filterMap _ = _
  rw [show qrNoDist.documents.length = 1 from rfl,
    show List.range 1 = [0] by decide]
  simp only [List.filterMap_cons, List.filterMap_nil]
  rw [if_pos hok]

theorem retrieve_qrNoDist :
    (retrieve_context 1 (some qrNoDist) (3/10)).2.1 = [candidateAt qrNoDist 0] := by
  simp only [retrieve_context, if_neg (by decide : ¬ ((1:Nat) = 0)),
    if_neg (by decide : ¬ (qrNoDist.documents = []))]
  rw [effThreshold_default, filterPass_qrNoDist_config,
    if_neg (by simp : ¬ (([candidateAt qrNoDist 0] : List RetrievedDoc) = [] ∧
      (1:ℚ)/10 < 3/10))]

/-- C2 witness: a single candidate at distance 1.2 (similarity 0.2) with
configured threshold 0.3 fails the first pass; the relaxed pass keeps it and
the context is non-empty. -/
theorem c2_threshold_relaxation_witness :
    (retrieve_context 1 (some qrRelax) (3/10)).2.1 = filterPass qrRelax (1/10) ∧
    (retrieve_context 1 (some qrRelax) (3/10)).1 ≠ [] := by
  have h := c2_threshold_relaxation 1 qrRelax (3/10) (by decide) (by decide)
  refine ⟨h.1 ?_ ?_, h.2 ⟨0, ?_, ?_⟩⟩
  · rw [effThreshold_default]
    exact filterPass_qrRelax_config
  · rw [effThreshold_default]
    norm_num
  · decide
  · rw [show qrRelax.distances.getD 0 1 = 6/5 from rfl, sim_six_fifths]
    norm_num

/-- C4: the first half of the claim holds — for every raw distance `d ≥ 0`
the derived similarity equals `max(0, 1 - d/1.5)` and lies in `[0, 1]` — and
(amended) every candidate in the context bundle is `candidateAt qr i` for
some returned position `i`, i.e. it always carries a similarity computed by
the formula, but from the *default* distance 1.0 when the store returned no
distance at its position. -/
theorem c4_similarity_invariant (d : ℚ) (hd : 0 ≤ d) (count : Nat)
    (qr : QueryResults) (θcfg : ℚ) (c : RetrievedDoc)
    (hc : c ∈ (retrieve_context count (some qr) θcfg).2.1) :
    (0 ≤ sim d ∧ sim d ≤ 1 ∧ sim d = max 0 (1 - d / (3/2))) ∧
    ∃ i, i < qr.documents.length ∧ c = candidateAt qr i := by
  refine ⟨⟨le_max_left 0 _, ?_, rfl⟩, ?_⟩
  · apply max_le (by norm_num)
    have h2 : 0 ≤ d / (3/2 : ℚ) := div_nonneg hd (by norm_num)
    linarith
  · by_cases hcnt : count = 0
    · simp only [retrieve_context, if_pos hcnt] at hc
      exact absurd hc (List.not_mem_nil c)
    · by_cases hdoc : qr.documents = []
      · simp only [retrieve_context, if_neg hcnt, if_pos hdoc] at hc
        exact absurd hc (List.not_mem_nil c)
      · simp only [retrieve_context, if_neg hcnt, if_neg hdoc] at hc
        by_cases hcond : filterPass qr (effThreshold θcfg) = [] ∧
            1/10 < effThreshold θcfg
        · rw [if_pos hcond] at hc
          obtain ⟨i, hi, hceq, _⟩ := filterPass_mem hc
          exact ⟨i, hi, hceq⟩
        · rw [if_neg hcond] at hc
          obtain ⟨i, hi, hceq, _⟩ := filterPass_mem hc
          exact ⟨i, hi, hceq⟩

/-- C4 counterexample: with one returned document and an *empty* distances
list, the candidate's similarity is computed from the default distance 1.0
(similarity 1/3 ≥ threshold 0.3) and the chunk *does* enter the context
bundle — refuting the claim that a chunk with no similarity computed from a
returned distance never enters the bundle. -/
theorem c4_no_distance_enters_bundle :
    (retrieve_context 1 (some qrNoDist) (3/10)).2.1 = [candidateAt qrNoDist 0] ∧
    (candidateAt qrNoDist 0).similarity_score = 1/3 ∧
    qrNoDist.distances = [] :=
  ⟨retrieve_qrNoDist,
   by rw [candidateAt_similarity, show qrNoDist.distances.getD 0 1 = 1 from rfl,
     sim_one],
   rfl⟩

/-- C4 witness: the similarity bounds at `d = 3/4` and the bundle membership
characterisation at a concrete retrieval. -/
theorem c4_similarity_invariant_witness :
    (0 ≤ sim (3/4) ∧ sim (3/4) ≤ 1 ∧ sim (3/4) = max 0 (1 - (3/4) / (3/2))) ∧
    ∃ i, i < qrNoDist.documents.length ∧
      candidateAt qrNoDist 0 = candidateAt qrNoDist i :=
  c4_similarity_invariant (3/4) (by norm_num) 1 qrNoDist (3/10)
    (candidateAt qrNoDist 0)
    (by rw [retrieve_qrNoDist]; exact List.mem_singleton.mpr rfl)

/-! ## Context budgeter lemmas -/

theorem sumTk_nil (tk : Str → Nat) : sumTk tk [] = 0 := rfl

theorem sumTk_cons (tk : Str → Nat) (p : Str) (l : List Str) :
    sumTk tk (p :: l) = tk p + sumTk tk l := by
  simp [sumTk]

theorem greedyParts_spec (tk : Str → Nat) (maxT : Nat) :
    ∀ (l : List Str) (cur : Nat), ∃ n, n ≤ l.length ∧
      greedyParts tk maxT l cur = l.take n ∧
      (0 < n → cur + sumTk tk (l.take n) ≤ maxT) ∧
      (n < l.length → maxT < cur + sumTk tk (l.take (n + 1))) := by
  intro l
  induction l with
  | nil =>
    intro cur
    exact ⟨0, le_refl 0, rfl, fun h => absurd h (lt_irrefl 0),
      fun h => absurd h (by simp)⟩
  | cons p ps ih =>
    intro cur
    by_cases hp : cur + tk p ≤ maxT
    · obtain ⟨n, hn, heq, hle, hgt⟩ := ih (cur + tk p)
      refine ⟨n + 1, Nat.succ_le_succ hn, ?_, ?_, ?_⟩
      · simp only [greedyParts, List.take_succ_cons]
        rw [if_pos hp, heq]
      · intro _
        rw [List.take_succ_cons, sumTk_cons]
        rcases Nat.eq_zero_or_pos n with h0 | hpos
        · subst h0
          simpa [sumTk] using hp
        · have h2 := hle hpos
          omega
      · intro hlt
        have h2 := hgt (by simpa using Nat.lt_of_succ_lt_succ hlt)
        rw [List.take_succ_cons, sumTk_cons]
        omega
    · refine ⟨0, Nat.zero_le _, ?_, fun h => absurd h (lt_irrefl 0), fun _ => ?_⟩
      · simp only [greedyParts, List.take_zero]
        rw [if_neg hp]
      · rw [List.take_succ_cons, List.take_zero, sumTk_cons, sumTk_nil]
        omega

/-- C5: for every context string and token budget, `_truncate_context`
returns the context unchanged when its token count is at most `max_tokens`;
otherwise it splits the context at the separator into whole source-units and
greedily keeps a prefix of whole units whose running token total stays
within budget, stopping at the first unit that would exceed it — never a
partially split unit. -/
theorem c5_truncate_greedy_whole_units (tk : Str → Nat) (context : Str) (maxT : Nat) :
    (tk context ≤ maxT → truncate_context tk context maxT = context) ∧
    (maxT < tk context → ∃ n, n ≤ (splitSep ctxSep context).length ∧
      truncate_context tk context maxT =
        joinSep ctxSep ((splitSep ctxSep context).take n) ∧
      sumTk tk ((splitSep ctxSep context).take n) ≤ maxT ∧
      (n < (splitSep ctxSep context).length →
        maxT < sumTk tk ((splitSep ctxSep context).take (n + 1)))) := by
  constructor
  · intro h
    rw [truncate_context, if_pos h]
  · intro h
    obtain ⟨n, hn, heq, hle, hgt⟩ :=
      greedyParts_spec tk maxT (splitSep ctxSep context) 0
    refine ⟨n, hn, ?_, ?_, fun hlt => by simpa using hgt hlt⟩
    · rw [truncate_context, if_neg (not_le.mpr h), heq]
    · rcases Nat.eq_zero_or_pos n with h0 | hpos
      · subst h0
        simp [sumTk]
      · simpa using hle hpos

/-- C5 witness: a short context is returned unchanged; a ten-unit context of
six-character units under a budget of 27 tokens (with the character-count
tokenizer) keeps exactly a whole-unit prefix within budget. -/
theorem c5_truncate_greedy_whole_units_witness :
    truncate_context lenTk (str "ab") 5 = str "ab" ∧
    ∃ n, n ≤ (splitSep ctxSep tenUnitCtx).length ∧
      truncate_context lenTk tenUnitCtx 27 =
        joinSep ctxSep ((splitSep ctxSep tenUnitCtx).take n) ∧
      sumTk lenTk ((splitSep ctxSep tenUnitCtx).take n) ≤ 27 ∧
      (n < (splitSep ctxSep tenUnitCtx).length →
        27 < sumTk lenTk ((splitSep ctxSep tenUnitCtx).take (n + 1))) :=
  ⟨(c5_truncate_greedy_whole_units lenTk (str "ab") 5).1 (by decide),
   (c5_truncate_greedy_whole_units lenTk tenUnitCtx 27).2 (by decide)⟩

/-! ## Chunker scan-window lemmas -/

theorem searchBack_none (content : Str) :
    ∀ fuel i, fuel ≤ i → searchBack content fuel i = none →
      ∀ j, i - fuel < j → j ≤ i → isSentenceBoundary content j = false := by
  intro fuel
  induction fuel with
  | zero =>
    intro i _ _ j hj1 hj2
    exact absurd hj2 (by omega)
  | succ fuel ih =>
    intro i hfi hnone j hj1 hj2
    simp only [searchBack] at hnone
    by_cases hb : isSentenceBoundary content i = true
    · rw [if_pos hb] at hnone
      exact absurd hnone (by simp)
    · rw [if_neg hb] at hnone
      by_cases hji : j = i
      · subst hji
        rw [Bool.not_eq_true] at hb
        exact hb
      · exact ih (i - 1) (by omega) hnone j (by omega) (by omega)

theorem searchBack_some (content : Str) :
    ∀ fuel i k, fuel ≤ i → searchBack content fuel i = some k →
      isSentenceBoundary content k = true ∧ i - fuel < k ∧ k ≤ i ∧
      ∀ j, k < j → j ≤ i → isSentenceBoundary content j = false := by
  intro fuel
  induction fuel with
  | zero =>
    intro i k _ h
    exact absurd h (by simp [searchBack])
  | succ fuel ih =>
    intro i k hfi h
    simp only [searchBack] at h
    by_cases hb : isSentenceBoundary content i = true
    · rw [if_pos hb] at h
      injection h with h2
      subst h2
      exact ⟨hb, by omega, le_refl i, fun j hj1 hj2 => absurd hj2 (by omega)⟩
    · rw [if_neg hb] at h
      obtain ⟨h1, h2, h3, h4⟩ := ih (i - 1) k (by omega) h
      refine ⟨h1, by omega, by omega, fun j hj1 hj2 => ?_⟩
      by_cases hji : j = i
      · subst hji
        rw [Bool.not_eq_true] at hb
        exact hb
      · exact h4 j hj1 (by omega)

/-- C8 counterexample: with the configured chunk size 1000, content of
length 1002 whose only sentence boundary lies 300 characters before the
nominal cut — within `chunk_size/2 = 500` as the claim demands — is cut at
the nominal boundary 1000, because the code's backward scan stops at
`max(start + chunk_size - 200, start + chunk_size // 2) = 800`, i.e. only
200 characters back. -/
theorem c8_scan_window_counterexample :
    adjustEnd 1000 farBoundaryContent 0 1000 = 1000 ∧
    isSentenceBoundary farBoundaryContent 700 = true ∧
    1000 - 1000 / 2 ≤ 700 := by
  refine ⟨by decide, by decide, by norm_num⟩

/-- C8 amended: for every content longer than the nominal cut, the backward
search for a sentence boundary extends only down to
`max(start + chunk_size - 200, start + chunk_size/2)` *exclusive* — at most
200 characters back from the nominal cut point when `chunk_size ≥ 400` —
and the cut is placed just after the latest boundary in that window if one
exists, otherwise at the nominal boundary. -/
theorem c8_scan_window (cs : Nat) (content : Str) (start endN : Nat)
    (h : endN < content.length) :
    (adjustEnd cs content start endN = endN ∧
      ∀ j, scanLower cs start < j → j ≤ endN →
        isSentenceBoundary content j = false) ∨
    (∃ i, adjustEnd cs content start endN = i + 1 ∧
      isSentenceBoundary content i = true ∧
      scanLower cs start < i ∧ i ≤ endN ∧
      ∀ j, i < j → j ≤ endN → isSentenceBoundary content j = false) := by
  rw [adjustEnd, if_pos h]
  cases hs : searchBack content (endN - scanLower cs start) endN with
  | none =>
    left
    refine ⟨rfl, fun j hj1 hj2 => ?_⟩
    by_cases hL : scanLower cs start ≤ endN
    · exact searchBack_none content _ endN (by omega) hs j (by omega) hj2
    · exact absurd hj2 (by omega)
  | some i =>
    right
    by_cases h0 : endN - scanLower cs start = 0
    · rw [h0] at hs
      exact absurd hs (by simp [searchBack])
    · obtain ⟨h1, h2, h3, h4⟩ :=
        searchBack_some content _ endN i (Nat.sub_le _ _) hs
      exact ⟨i, rfl, h1, by omega, h3, h4⟩

/-- C8 witness: content of length 1002 with a boundary 100 characters before
the nominal cut at 1000 (inside the 200-character window) satisfies the
scan-window characterisation. -/
theorem c8_scan_window_witness :
    (adjustEnd 1000 nearBoundaryContent 0 1000 = 1000 ∧
      ∀ j, scanLower 1000 0 < j → j ≤ 1000 →
        isSentenceBoundary nearBoundaryContent j = false) ∨
    (∃ i, adjustEnd 1000 nearBoundaryContent 0 1000 = i + 1 ∧
      isSentenceBoundary nearBoundaryContent i = true ∧
      scanLower 1000 0 < i ∧ i ≤ 1000 ∧
      ∀ j, i < j → j ≤ 1000 → isSentenceBoundary nearBoundaryContent j = false) :=
  c8_scan_window 1000 nearBoundaryContent 0 1000 (by decide)

/-! ## Chunker output invariants -/

theorem pstrip_idem (l : Str) : pstrip (pstrip l) = pstrip l := by
  have hm : List.dropWhile isPyWS (List.dropWhile isPyWS l) =
      List.dropWhile isPyWS l := List.dropWhile_idempotent isPyWS l
  have hkey : List.dropWhile isPyWS
      (List.rdropWhile isPyWS (List.dropWhile isPyWS l)) =
      List.rdropWhile isPyWS (List.dropWhile isPyWS l) := by
    rw [List.dropWhile_eq_self_iff]
    intro h0
    have hpre : List.rdropWhile isPyWS (List.dropWhile isPyWS l) <+:
        List.dropWhile isPyWS l := List.rdropWhile_prefix _ _
    have hlen : 0 < (List.dropWhile isPyWS l).length :=
      lt_of_lt_of_le h0 hpre.length_le
    have hget := List.IsPrefix.getElem hpre h0
    have hm0 := List.dropWhile_eq_self_iff.mp hm hlen
    simpa [List.get_eq_getElem, hget] using hm0
  show List.rdropWhile isPyWS (List.dropWhile isPyWS
    (List.rdropWhile isPyWS (List.dropWhile isPyWS l))) = _
  rw [hkey, List.rdropWhile_idempotent]
  rfl

theorem chunkLoop_props (cs ov : Nat) (content : Str) :
    ∀ fuel start acc,
      (∀ c ∈ acc, c ≠ [] ∧ pstrip c = c ∧ 100 < c.length) →
      ∀ c ∈ chunkLoop cs ov content fuel start acc,
        c ≠ [] ∧ pstrip c = c ∧ 100 < c.length := by
  intro fuel
  induction fuel with
  | zero =>
    intro start acc hacc c hc
    exact hacc c hc
  | succ fuel ih =>
    intro start acc hacc c hc
    by_cases h1 : start < content.length
    · simp only [chunkLoop, if_pos h1] at hc
      set chunk := pstrip ((content.drop start).take
        (adjustEnd cs content start (start + cs) - start)) with hchunk
      have hP : ∀ x ∈ (if chunk ≠ [] ∧ 100 < chunk.length
          then acc ++ [chunk] else acc),
          x ≠ [] ∧ pstrip x = x ∧ 100 < x.length := by
        intro x hx
        by_cases hcond : chunk ≠ [] ∧ 100 < chunk.length
        · rw [if_pos hcond] at hx
          rcases List.mem_append.mp hx with h | h
          · exact hacc x h
          · rw [List.mem_singleton] at h
            subst h
            exact ⟨hcond.1, by rw [hchunk]; exact pstrip_idem _, hcond.2⟩
        · rw [if_neg hcond] at hx
          exact hacc x hx
      by_cases h2 : content.length ≤ adjustEnd cs content start (start + cs) - ov
      · rw [if_pos h2] at hc
        exact hP c hc
      · rw [if_neg h2] at hc
        exact ih _ _ hP c hc
    · simp only [chunkLoop, if_neg h1] at hc
      exact hacc c hc

/-- C9 counterexample: the claim fails twice on the code.  Empty content
takes the short path of line 69-70 and is returned as the single *empty*
chunk, so the output can contain an empty (and untrimmed, sub-floor) chunk;
and whitespace-padded content of length 1001 produces two *identical*
150-character chunks (the overlapping windows strip to the same core), so
the output can contain duplicates. -/
theorem c9_chunk_counterexample :
    chunk_content CHUNK_SIZE CHUNK_OVERLAP [] = [[]] ∧
    chunk_content CHUNK_SIZE CHUNK_OVERLAP dupChunkContent =
      [List.replicate 150 'a', List.replicate 150 'a'] :=
  ⟨rfl, by decide⟩

/-- C9 amended: content of length at most `chunk_size` is returned as-is as a
single (possibly empty, untrimmed, sub-floor) chunk; for every longer
content, every chunk in the output is nonempty, trimmed of surrounding
whitespace (`pstrip` fixed point), and longer than the 100-character floor —
but identical chunks may repeat. -/
theorem c9_chunk_invariants (content : Str) :
    (content.length ≤ CHUNK_SIZE →
      chunk_content CHUNK_SIZE CHUNK_OVERLAP content = [content]) ∧
    (CHUNK_SIZE < content.length →
      ∀ c ∈ chunk_content CHUNK_SIZE CHUNK_OVERLAP content,
        c ≠ [] ∧ pstrip c = c ∧ 100 < c.length) := by
  constructor
  · intro h
    rw [chunk_content, if_pos h]
  · intro h c hc
    rw [chunk_content, if_neg (not_le.mpr h)] at hc
    exact chunkLoop_props _ _ content content.length 0 [] (by simp) c hc

/-- C9 witness: short content comes back unchanged; the first chunk of 1001
identical characters is nonempty, trimmed and above the floor. -/
theorem c9_chunk_invariants_witness :
    chunk_content CHUNK_SIZE CHUNK_OVERLAP (str "hi") = [str "hi"] ∧
    (List.replicate 1000 'a' ≠ [] ∧
      pstrip (List.replicate 1000 'a') = List.replicate 1000 'a' ∧
      100 < (List.replicate 1000 'a').length) := by
  refine ⟨(c9_chunk_invariants (str "hi")).1 (by decide), ?_⟩
  refine (c9_chunk_invariants (List.replicate 1001 'a')).2 (by decide) _ ?_
  rw [show chunk_content CHUNK_SIZE CHUNK_OVERLAP (List.replicate 1001 'a') =
    [List.replicate 1000 'a', List.replicate 201 'a'] from by decide]
  exact List.mem_cons_self _ _

/-! ## Knowledge-store upsert lemmas (claim C7) -/

theorem storeKeys_cons (k : String) (v : Str) (t : Store) :
    storeKeys ((k, v) :: t) = k :: storeKeys t := rfl

theorem storeLookup_cons (k k2 : String) (v : Str) (t : Store) :
    storeLookup k ((k2, v) :: t) = if k2 = k then some v else storeLookup k t := rfl

theorem upsert_cons_eq (k : String) (v : Str) (t : Store) (ku : String)
    (vu : Str) (h : k = ku) : upsert ((k, v) :: t) (ku, vu) = (k, vu) :: t := by
  simp [upsert, h]

theorem upsert_cons_ne (k : String) (v : Str) (t : Store) (ku : String)
    (vu : Str) (h : ¬ k = ku) :
    upsert ((k, v) :: t) (ku, vu) = (k, v) :: upsert t (ku, vu) := by
  simp [upsert, h]

theorem upsertMany_cons (s : Store) (kv : String × Str)
    (l : List (String × Str)) :
    upsertMany s (kv :: l) = upsertMany (upsert s kv) l := rfl

theorem storeKeys_upsert (ku : String) (vu : Str) :
    ∀ s : Store, storeKeys (upsert s (ku, vu)) =
      if ku ∈ storeKeys s then storeKeys s else storeKeys s ++ [ku] := by
  intro s
  induction s with
  | nil => simp [upsert, storeKeys]
  | cons hd t ih =>
    obtain ⟨k, v⟩ := hd
    by_cases h : k = ku
    · subst h
      rw [upsert_cons_eq _ _ _ _ _ rfl, storeKeys_cons, storeKeys_cons,
        if_pos (List.mem_cons_self _ _)]
    · rw [upsert_cons_ne _ _ _ _ _ h, storeKeys_cons, storeKeys_cons, ih]
      by_cases hm : ku ∈ storeKeys t
      · rw [if_pos hm, if_pos (List.mem_cons_of_mem _ hm)]
      · rw [if_neg hm, if_neg (fun hor => (List.mem_cons.mp hor).elim
          (fun he => h he.symm) hm)]
        rfl

theorem mem_storeKeys_upsert_left {x : String} {s : Store} (ku : String)
    (vu : Str) (h : x ∈ storeKeys s) : x ∈ storeKeys (upsert s (ku, vu)) := by
  rw [storeKeys_upsert]
  split
  · exact h
  · exact List.mem_append_left _ h

theorem storeKeys_upsert_of_mem {s : Store} {ku : String} {vu : Str}
    (h : ku ∈ storeKeys s) : storeKeys (upsert s (ku, vu)) = storeKeys s := by
  rw [storeKeys_upsert, if_pos h]

theorem nodup_storeKeys_upsert {s : Store} (ku : String) (vu : Str)
    (h : (storeKeys s).Nodup) : (storeKeys (upsert s (ku, vu))).Nodup := by
  rw [storeKeys_upsert]
  split
  · exact h
  · rename_i hm
    exact List.nodup_append.mpr ⟨h, List.nodup_singleton _,
      fun a ha hb => hm (by rw [List.mem_singleton] at hb; exact hb ▸ ha)⟩

theorem storeLookup_upsert (k ku : String) (vu : Str) :
    ∀ s : Store, storeLookup k (upsert s (ku, vu)) =
      if k = ku then some vu else storeLookup k s := by
  intro s
  induction s with
  | nil =>
    show (if ku = k then some vu else none) = if k = ku then some vu else none
    by_cases h : k = ku
    · rw [if_pos h.symm, if_pos h]
    · rw [if_neg (fun he => h he.symm), if_neg h]
  | cons hd t ih =>
    obtain ⟨k2, v2⟩ := hd
    by_cases h2 : k2 = ku
    · rw [upsert_cons_eq _ _ _ _ _ h2, storeLookup_cons, storeLookup_cons]
      by_cases h : k2 = k
      · rw [if_pos h, if_pos (h.symm.trans h2)]
      · rw [if_neg h, if_neg h,
          if_neg (fun he : k = ku => h (h2.trans he.symm))]
    · rw [upsert_cons_ne _ _ _ _ _ h2, storeLookup_cons, storeLookup_cons, ih]
      by_cases h : k2 = k
      · rw [if_pos h, if_pos h,
          if_neg (fun he : k = ku => h2 (h.trans he))]
      · rw [if_neg h, if_neg h]

theorem mem_storeKeys_iff_lookup (k : String) :
    ∀ s : Store, k ∈ storeKeys s ↔ (storeLookup k s).isSome := by
  intro s
  induction s with
  | nil => simp [storeKeys, storeLookup]
  | cons hd t ih =>
    obtain ⟨k2, v2⟩ := hd
    rw [storeKeys_cons, storeLookup_cons, List.mem_cons]
    by_cases h : k2 = k
    · rw [if_pos h]
      simp [h.symm]
    · rw [if_neg h]
      exact ⟨fun hor => hor.elim (fun he => absurd he.symm h) ih.mp,
        fun hs => Or.inr (ih.mpr hs)⟩

theorem mem_storeKeys_upsertMany_left {x : String} :
    ∀ (l : List (String × Str)) (s : Store), x ∈ storeKeys s →
      x ∈ storeKeys (upsertMany s l) := by
  intro l
  induction l with
  | nil => exact fun s h => h
  | cons kv t ih =>
    intro s h
    obtain ⟨ku, vu⟩ := kv
    rw [upsertMany_cons]
    exact ih (upsert s (ku, vu)) (mem_storeKeys_upsert_left ku vu h)

theorem mem_storeKeys_upsertMany_right {x : String} :
    ∀ (l : List (String × Str)) (s : Store), x ∈ l.map Prod.fst →
      x ∈ storeKeys (upsertMany s l) := by
  intro l
  induction l with
  | nil =>
    intro s h
    exact absurd h (List.not_mem_nil x)
  | cons kv t ih =>
    intro s h
    obtain ⟨ku, vu⟩ := kv
    rw [List.map_cons] at h
    rw [upsertMany_cons]
    rcases List.mem_cons.mp h with h1 | h1
    · apply mem_storeKeys_upsertMany_left t
      rw [storeKeys_upsert]
      split
      · rename_i hm
        rw [h1]
        exact hm
      · refine List.mem_append_right _ ?_
        rw [h1]
        exact List.mem_singleton.mpr rfl
    · exact ih (upsert s (ku, vu)) h1

theorem storeKeys_upsertMany_of_subset :
    ∀ (l : List (String × Str)) (s : Store),
      (∀ x ∈ l.map Prod.fst, x ∈ storeKeys s) →
      storeKeys (upsertMany s l) = storeKeys s := by
  intro l
  induction l with
  | nil => exact fun s _ => rfl
  | cons kv t ih =>
    intro s h
    obtain ⟨ku, vu⟩ := kv
    have hk : ku ∈ storeKeys s := h ku (by simp)
    have he : storeKeys (upsert s (ku, vu)) = storeKeys s :=
      storeKeys_upsert_of_mem hk
    rw [upsertMany_cons]
    calc storeKeys (upsertMany (upsert s (ku, vu)) t)
        = storeKeys (upsert s (ku, vu)) :=
          ih (upsert s (ku, vu)) (fun x hx => by
            rw [he]
            exact h x (by rw [List.map_cons]; exact List.mem_cons_of_mem _ hx))
      _ = storeKeys s := he

theorem nodup_storeKeys_upsertMany :
    ∀ (l : List (String × Str)) (s : Store), (storeKeys s).Nodup →
      (storeKeys (upsertMany s l)).Nodup := by
  intro l
  induction l with
  | nil => exact fun s h => h
  | cons kv t ih =>
    intro s h
    obtain ⟨ku, vu⟩ := kv
    rw [upsertMany_cons]
    exact ih (upsert s (ku, vu)) (nodup_storeKeys_upsert ku vu h)

theorem storeLookup_upsertMany (k : String) :
    ∀ (l : List (String × Str)) (s : Store),
      storeLookup k (upsertMany s l) =
        match lastVal k l with
        | some v => some v
        | none => storeLookup k s := by
  intro l
  induction l with
  | nil => exact fun s => rfl
  | cons kv t ih =>
    intro s
    obtain ⟨ku, vu⟩ := kv
    rw [upsertMany_cons, ih (upsert s (ku, vu)), storeLookup_upsert]
    show _ = (match (match lastVal k t with
      | some v => some v
      | none => if ku = k then some vu else none) with
      | some v => some v
      | none => storeLookup k s)
    cases hl : lastVal k t with
    | some v => rfl
    | none =>
      by_cases h : k = ku
      · rw [if_pos h, if_pos h.symm]
      · rw [if_neg h, if_neg (fun he => h he.symm)]

theorem store_ext : ∀ s t : Store, storeKeys s = storeKeys t →
    (storeKeys s).Nodup → (∀ k, storeLookup k s = storeLookup k t) →
    s = t := by
  intro s
  induction s with
  | nil =>
    intro t hkeys _ _
    cases t with
    | nil => rfl
    | cons hd t2 =>
      obtain ⟨k2, v2⟩ := hd
      exact absurd hkeys.symm (by rw [storeKeys_cons]; simp [storeKeys])
  | cons hd s2 ih =>
    intro t hkeys hnd hlook
    obtain ⟨k, v⟩ := hd
    cases t with
    | nil =>
      exact absurd hkeys (by rw [storeKeys_cons]; simp [storeKeys])
    | cons hd2 t2 =>
      obtain ⟨k2, v2⟩ := hd2
      rw [storeKeys_cons, storeKeys_cons] at hkeys
      injection hkeys with ha hb
      subst ha
      rw [storeKeys_cons] at hnd
      obtain ⟨hnotin, hnd2⟩ := List.nodup_cons.mp hnd
      have hv : v = v2 := by
        have hl := hlook k
        rw [storeLookup_cons, storeLookup_cons, if_pos rfl, if_pos rfl] at hl
        exact Option.some.inj hl
      subst hv
      have htl : ∀ k3, storeLookup k3 s2 = storeLookup k3 t2 := by
        intro k3
        by_cases h3 : k3 = k
        · subst h3
          have h4 : storeLookup k3 s2 = none := by
            cases ho : storeLookup k3 s2 with
            | none => rfl
            | some w =>
              exact absurd ((mem_storeKeys_iff_lookup k3 s2).mpr
                (by rw [ho]; rfl)) hnotin
          have h5 : storeLookup k3 t2 = none := by
            cases ho : storeLookup k3 t2 with
            | none => rfl
            | some w =>
              refine absurd ((mem_storeKeys_iff_lookup k3 t2).mpr
                (by rw [ho]; rfl)) ?_
              rw [← hb]
              exact hnotin
          rw [h4, h5]
        · have hl := hlook k3
          rw [storeLookup_cons, storeLookup_cons,
            if_neg (fun he => h3 he.symm), if_neg (fun he => h3 he.symm)] at hl
          exact hl
      rw [ih t2 hb hnd2 htl]

theorem upsertMany_idem (l : List (String × Str)) :
    upsertMany (upsertMany [] l) l = upsertMany [] l := by
  apply store_ext
  · exact storeKeys_upsertMany_of_subset l (upsertMany [] l)
      (fun x hx => mem_storeKeys_upsertMany_right l [] hx)
  · exact nodup_storeKeys_upsertMany l (upsertMany [] l)
      (nodup_storeKeys_upsertMany l [] List.nodup_nil)
  · intro k
    rw [storeLookup_upsertMany, storeLookup_upsertMany]
    cases hl : lastVal k l with
    | some v => rfl
    | none => rfl

theorem addBatchesGo_all_ok {σ α : Type} (ins : σ → α → σ) :
    ∀ (batches : List α) (b : Nat) (bn : Option Nat) (s : σ),
      addBatchesGo (fun _ => true) ins b bn s batches =
        (true, batches.foldl ins s) := by
  intro batches
  induction batches with
  | nil => intro b bn s; rfl
  | cons x t ih => intro b bn s; exact ih (b + 1) (some (b + 1)) (ins s x)

theorem upsertMany_append (s : Store) (a b : List (String × Str)) :
    upsertMany s (a ++ b) = upsertMany (upsertMany s a) b := by
  simp [upsertMany, List.foldl_append]

theorem batchSlicesF_foldl_upsertMany :
    ∀ (fuel : Nat) (l : List (String × Str)) (s : Store), l.length ≤ fuel →
      (batchSlicesF 50 fuel l).foldl upsertMany s = upsertMany s l := by
  intro fuel
  induction fuel with
  | zero =>
    intro l s hl
    have h0 : l = [] := List.length_eq_zero.mp (Nat.le_zero.mp hl)
    subst h0
    rfl
  | succ fuel ih =>
    intro l s hl
    cases l with
    | nil => rfl
    | cons x xs =>
      show ((x :: xs).take 50 :: batchSlicesF 50 fuel
        ((x :: xs).drop 50)).foldl upsertMany s = _
      rw [List.foldl_cons,
        ih ((x :: xs).drop 50) (upsertMany s ((x :: xs).take 50)) (by
          rw [List.length_drop]
          simp only [List.length_cons] at hl ⊢
          omega),
        ← upsertMany_append, List.take_append_drop]

theorem build_kb_store_eq (s : Store) (docs : List ScrapedDoc)
    (h : docs ≠ []) :
    build_kb_store s docs = upsertMany s (buildEntries docs) := by
  rw [build_kb_store, build_knowledge_base, if_neg h]
  show (addBatchesGo (fun _ => true) upsertMany 0 none s
    (batchSlices 50 (buildEntries docs))).2 = _
  rw [addBatchesGo_all_ok]
  exact batchSlicesF_foldl_upsertMany _ _ _ (Nat.le_succ _)

/-- C7: building the knowledge base twice from the same document sequence
with identical chunking inserts the same deterministic chunk-id entries
(`buildEntries docs`, with ids `doc_<i>_chunk_<j>`) both times, and against
the spec-modelled upsert store the second build overwrites rather than
duplicates: the store — hence its id set and its count — is unchanged. -/
theorem c7_idempotent_rebuild (docs : List ScrapedDoc) :
    build_kb_store (build_kb_store [] docs) docs = build_kb_store [] docs ∧
    storeKeys (build_kb_store (build_kb_store [] docs) docs) =
      storeKeys (build_kb_store [] docs) ∧
    (build_kb_store (build_kb_store [] docs) docs).length =
      (build_kb_store [] docs).length := by
  have h : build_kb_store (build_kb_store [] docs) docs =
      build_kb_store [] docs := by
    by_cases hd : docs = []
    · subst hd
      rfl
    · rw [build_kb_store_eq _ _ hd, build_kb_store_eq _ _ hd]
      exact upsertMany_idem (buildEntries docs)
  exact ⟨h, by rw [h], by rw [h]⟩
